import Mathlib

/-!
Verification development for the multi-agent chat coordinator
(task/agent.py, task/coordination/gpa.py, task/app.py).

The Python source is shallowly embedded: pydantic/JSON values become the
inductive `JVal` (with `null` also standing for Python's `None`), chat
messages become the `Message` structure, the streamed delta-aggregation
loop of `GPAGateway.response` becomes a fold of `procDelta` over a list of
`Delta` fragments acting on an explicit `AggState`, and the helpers of
`MASCoordinator` become plain functions.  Python truthiness tests are
translated pointwise (`None`/`""`/`[]`/`{}`/`0`/`False` are falsy).

The progress-section sink (`task/stage_util.py` and the SDK `Stage`
operations) is repository/SDK code that is not under src/; those operations
are modelled from the spec, as marked on their doc comments.
-/

namespace MasCoord

/-! ## JSON-like values (pydantic payloads, opaque state blobs) -/

/-- A JSON-like value. `null` also represents Python's `None`, which is how
the source code itself conflates them (`dict.get` returns `None` for a
missing key, pydantic stores `None` for an absent field). -/
inductive JVal where
  | null : JVal
  | bool (b : Bool) : JVal
  | str (s : String) : JVal
  | num (n : Int) : JVal
  | arr (elems : List JVal) : JVal
  | obj (fields : List (String × JVal)) : JVal

/-- Python truthiness of a JSON value: `None`, `False`, `0`, `""`, `[]` and
`{}` are falsy, everything else is truthy. -/
def JVal.truthy : JVal → Bool
  | .null => false
  | .bool b => b
  | .str s => s != ""
  | .num n => n != 0
  | .arr elems => !elems.isEmpty
  | .obj fields => !fields.isEmpty

/-- Python's `dict.get(key)`: the value stored under `key`, or `None`
(`JVal.null`) when the key is missing or the receiver is not a dict. -/
def JVal.get (v : JVal) (k : String) : JVal :=
  match v with
  | .obj fields =>
    match fields.lookup k with
    | some w => w
    | none => .null
  | _ => .null

/-! ## Data model: attachments, progress sections, messages -/

/-- An attachment is an opaque structured payload, passed through verbatim. -/
structure Attachment where
  payload : JVal

/-- Status of a caller-visible progress section ("stage"). -/
inductive StageStatus where
  | opened : StageStatus
  | completed : StageStatus
deriving DecidableEq

/-- A caller-visible progress section: named, accumulating content and
attachments, independently closable. -/
structure Stage where
  name : Option String
  content : String
  attachments : List Attachment
  status : StageStatus

/-- Modelled from the spec: the SDK `Stage.append_content` operation of the
progress sink (not under src/).  The spec's data-model invariant says a
section with `status=completed` receives no further content updates (late
updates are ignored, never crash the turn), so appending is guarded on the
section being open. -/
def Stage.append_content (st : Stage) (s : String) : Stage :=
  if st.status = .opened then { st with content := st.content ++ s } else st

/-- Modelled from the spec: the SDK `Stage.add_attachment` operation of the
progress sink (not under src/).  As with content, a completed section
receives no further attachment updates. -/
def Stage.add_attachment (st : Stage) (a : Attachment) : Stage :=
  if st.status = .opened then { st with attachments := st.attachments ++ [a] } else st

/-- Modelled from the spec: `StageProcessor.close_stage_safely` from
task/stage_util.py (not under src/) — closing a section, idempotent and
safe to call on an already-closed section. -/
def StageProcessor.close_stage_safely (st : Stage) : Stage :=
  { st with status := .completed }

/-- Side-channel content of a chat message (pydantic `CustomContent`):
attachments, an opaque state blob (`JVal.null` when absent) and the rendered
record of progress sections. -/
structure CustomContent where
  attachments : List Attachment
  state : JVal
  stages : List Stage

/-- Message roles. -/
inductive Role where
  | system : Role
  | user : Role
  | assistant : Role
deriving DecidableEq

/-- A chat message as this core consumes and produces it. -/
structure Message where
  role : Role
  content : String
  custom_content : Option CustomContent

/-- Default used to model Python's indexing where the source guarantees the
index is in range. -/
def defaultMessage : Message :=
  { role := .user, content := "", custom_content := none }

/-! ## Streamed delta fragments (GPAGateway.response input) -/

/-- One nested-section update inside a delta's custom content, as read from
`cc.dict(exclude_none=True)`: a required integer `index` plus optional
fields (absent keys read back as `None`). -/
structure StageUpdate where
  index : Nat
  name : Option String
  content : Option String
  attachments : Option (List Attachment)
  status : Option String

/-- Custom content carried by one delta fragment: optional attachments, an
opaque state snapshot (`JVal.null` when absent) and optional nested-section
updates. -/
structure DeltaCustomContent where
  attachments : Option (List Attachment)
  state : JVal
  stages : Option (List StageUpdate)

/-- One delta fragment of the streamed agent call. -/
structure Delta where
  content : Option String
  custom_content : Option DeltaCustomContent

/-! ## The delta-aggregation state of GPAGateway.response -/

/-- The mutable state of the aggregation loop in `GPAGateway.response`:
the accumulated `content` string, the top-level progress section `stage`
passed in by the coordinator, the accumulated `result_attachments` and
`result_state` (the fields of `result_custom_content`), the list of
caller-visible nested sections this call opened (`choice_stages`, in open
order) and `stages_map` mapping each upstream section index to its position
in `choice_stages`. -/
structure AggState where
  content : String
  stage : Stage
  result_attachments : List Attachment
  result_state : JVal
  choice_stages : List Stage
  stages_map : List (Nat × Nat)

/-- Replace the element at position `i` by `f` of it; out-of-range leaves
the list unchanged. -/
def modifyAt {α : Type} (l : List α) (i : Nat) (f : α → α) : List α :=
  match l[i]? with
  | some a => l.set i (f a)
  | none => l

/-- Lookup in the index map (`stages_map.get(idx)` on the Python dict; the
map binds each index at most once, so association-list lookup is exact). -/
def lookupIdx (m : List (Nat × Nat)) (i : Nat) : Option Nat :=
  match m with
  | [] => none
  | e :: rest => if e.1 = i then some e.2 else lookupIdx rest i

/-- One nested-section update, exactly as the loop body of
`GPAGateway.response` handles one entry of `cc_dict["stages"]`: a known
index is updated (content, else attachments, else a completed marker), an
unknown index opens a new caller-visible section and records it. -/
def procStageUpdate (st : AggState) (u : StageUpdate) : AggState :=
  match lookupIdx st.stages_map u.index with
  | some pos =>
    if u.content.getD "" ≠ "" then
      { st with choice_stages := modifyAt st.choice_stages pos (Stage.append_content · (u.content.getD "")) }
    else if (u.attachments.getD []).isEmpty = false then
      { st with choice_stages := modifyAt st.choice_stages pos (fun s => (u.attachments.getD []).foldl Stage.add_attachment s) }
    else if u.status = some "completed" then
      { st with choice_stages := modifyAt st.choice_stages pos StageProcessor.close_stage_safely }
    else st
  | none =>
    { st with
      choice_stages := st.choice_stages ++
        [{ name := u.name, content := "", attachments := [], status := .opened }],
      stages_map := st.stages_map ++ [(u.index, st.choice_stages.length)] }

/-- The content part of the loop body: `if delta and delta.content:` appends
the fragment's text to the top-level stage and to the accumulated content. -/
def procDeltaContent (st : AggState) (d : Delta) : AggState :=
  match d.content with
  | some c =>
    if c ≠ "" then
      { st with stage := st.stage.append_content c, content := st.content ++ c }
    else st
  | none => st

/-- The attachments step of the custom-content handling: `if cc.attachments:`
extends the accumulated result attachments. -/
def procCCAttachments (cc : DeltaCustomContent) (st : AggState) : AggState :=
  if (cc.attachments.getD []).isEmpty = false then
    { st with result_attachments := st.result_attachments ++ cc.attachments.getD [] }
  else st

/-- The state step of the custom-content handling: `if cc.state:` overwrites
the accumulated state snapshot (last write wins). -/
def procCCState (cc : DeltaCustomContent) (st : AggState) : AggState :=
  if cc.state.truthy then { st with result_state := cc.state } else st

/-- The nested-section step of the custom-content handling: process every
stage update carried by this fragment, in order. -/
def procCCStages (cc : DeltaCustomContent) (st : AggState) : AggState :=
  if (cc.stages.getD []).isEmpty = false then
    (cc.stages.getD []).foldl procStageUpdate st
  else st

/-- The custom-content part of the loop body: extend attachments, overwrite
the state snapshot (last write wins), then process nested-section updates. -/
def procDeltaCustom (st : AggState) (d : Delta) : AggState :=
  match d.custom_content with
  | none => st
  | some cc => procCCStages cc (procCCState cc (procCCAttachments cc st))

/-- One full iteration of the aggregation loop of `GPAGateway.response`. -/
def procDelta (st : AggState) (d : Delta) : AggState :=
  procDeltaCustom (procDeltaContent st d) d

/-- The aggregation state at the start of an agent call: empty accumulators
and the coordinator-provided top-level stage. -/
def initAgg (stage : Stage) : AggState :=
  { content := "", stage := stage, result_attachments := [], result_state := .null,
    choice_stages := [], stages_map := [] }

/-- Force-closing one mapped section (one iteration of the
`for stg in stages_map.values()` loop after the stream ends). -/
def closeMapped (st : AggState) (e : Nat × Nat) : AggState :=
  { st with choice_stages :=
      modifyAt st.choice_stages e.2 StageProcessor.close_stage_safely }

/-- After the fragment sequence ends every section recorded in the index map
is closed safely. -/
def forceCloseAll (st : AggState) : AggState :=
  st.stages_map.foldl closeMapped st

/-- The whole aggregation of one agent call: fold the loop body over the
delta sequence, then force-close every recorded section. -/
def gpaAggregate (deltas : List Delta) (stage : Stage) : AggState :=
  forceCloseAll (deltas.foldl procDelta (initAgg stage))

/-- Concatenation of a list of strings in order. -/
def joinContents : List String → String
  | [] => ""
  | s :: rest => s ++ joinContents rest

/-! ## GPA opaque-state wrapper and message preparation -/

/-- The state wrapper `choice.set_state({"is_gpa": True, "gpa_messages": S})`
exported by `GPAGateway.response`. -/
def gpaWrapState (inner : JVal) : JVal :=
  .obj [("is_gpa", .bool true), ("gpa_messages", inner)]

/-- The reconstructed assistant message of `__prepare_gpa_messages`: a deep
copy of the history message whose opaque-state field is replaced by the
inner state stored under the `"gpa_messages"` key of the wrapper. -/
def restoreGpaAssistant (m : Message) (cc : CustomContent) : Message :=
  { m with custom_content := some { cc with state := cc.state.get "gpa_messages" } }

/-- Python's `request.messages[i - 1]` for an enumeration index `i`: the
previous message, which for `i = 0` is Python's `messages[-1]`, the last. -/
def prevMessage (msgs : List Message) (i : Nat) : Message :=
  if i = 0 then msgs.getD (msgs.length - 1) defaultMessage
  else msgs.getD (i - 1) defaultMessage

/-- The two messages `__prepare_gpa_messages` re-inserts for the history
message at index `i`: nothing unless it is an assistant message whose truthy
state is marked `is_gpa`, in which case the preceding user message and the
reconstructed assistant message are appended. -/
def gpaTranscribeAt (msgs : List Message) (i : Nat) (m : Message) : List Message :=
  if m.role = .assistant then
    match m.custom_content with
    | some cc =>
      if cc.state.truthy then
        if (cc.state.get "is_gpa").truthy then
          [prevMessage msgs i, restoreGpaAssistant m cc]
        else []
      else []
    | none => []
  else []

/-- The final message `__prepare_gpa_messages` appends: the latest user
message, with truthy additional instructions appended to its text. -/
def gpaLastMessage (msgs : List Message) (addInstr : Option String) : Message :=
  let lastMsg := msgs.getD (msgs.length - 1) defaultMessage
  match addInstr with
  | some instr =>
    if instr ≠ "" then
      { role := .user, content := lastMsg.content ++ "\n\n" ++ instr,
        custom_content := lastMsg.custom_content }
    else lastMsg
  | none => lastMsg

/-- `GPAGateway.__prepare_gpa_messages`: scan the request history, re-insert
prior GPA exchanges with the wrapper stripped, then append the latest user
message. -/
def prepare_gpa_messages (msgs : List Message) (addInstr : Option String) : List Message :=
  (msgs.enum.map fun p => gpaTranscribeAt msgs p.1 p.2).flatten ++ [gpaLastMessage msgs addInstr]

/-! ## MASCoordinator: planner/synthesizer message preparation -/

/-- The transcription `MASCoordinator.__prepare_messages` applies to one
history message: a user message carrying custom content is replaced by a
plain-text user message (the structured payload is dropped), every other
message is forwarded as-is. -/
def transcribeMessage (m : Message) : Message :=
  match m.role, m.custom_content with
  | .user, some _ => { role := .user, content := m.content, custom_content := none }
  | _, _ => m

/-- `MASCoordinator.__prepare_messages`: the fixed system prompt followed by
the transcribed request history. -/
def prepare_messages (msgs : List Message) (system_prompt : String) : List Message :=
  { role := .system, content := system_prompt, custom_content := none }
    :: msgs.map transcribeMessage

/-! ## MASCoordinator: synthesis context and side-channel merge -/

/-- One numbered context block of `__final_response`. -/
def contextBlock (i : Nat) (m : Message) : String :=
  "## CONTEXT " ++ toString (i + 1) ++ ":\n " ++ m.content

/-- The context-block construction of `__final_response`: numbered blocks for
several agent messages, a single unlabeled block for one, a literal marker
for none. -/
def buildContext (agent_messages : List Message) : String :=
  if agent_messages.length > 1 then
    String.intercalate "\n" (agent_messages.enum.map fun p => contextBlock p.1 p.2)
  else if agent_messages.length = 1 then
    "## CONTEXT:\n " ++ (agent_messages.getD 0 defaultMessage).content
  else
    "No agent calls"

/-- The separator `__final_response` puts between the context block and the
original user text. -/
def userRequestSeparator : String :=
  "\n ---\n ## USER_REQUEST: \n "

/-- The in-place update `messages[-1]["content"] = context + ... + old` of
`__final_response`: only the final message's text changes. -/
def applySynthesisContext (messages : List Message) (context : String) : List Message :=
  let lastMsg := messages.getD (messages.length - 1) defaultMessage
  messages.set (messages.length - 1)
    { lastMsg with content := context ++ userRequestSeparator ++ lastMsg.content }

/-- One iteration of the side-channel merge loop of `__final_response`: the
first message with custom content seeds the accumulator (a deep copy), every
later one extends its stages and attachments. -/
def mergeCustomContentStep (acc : Option CustomContent) (m : Message) : Option CustomContent :=
  match m.custom_content with
  | some cc =>
    match acc with
    | none => some cc
    | some a => some { a with stages := a.stages ++ cc.stages,
                              attachments := a.attachments ++ cc.attachments }
  | none => acc

/-- The merged side channel of the returned synthesis message: `None` when no
agent message carried custom content. -/
def mergeCustomContent (agent_messages : List Message) : Option CustomContent :=
  agent_messages.foldl mergeCustomContentStep none

/-- The stages of all agent messages that carry custom content, concatenated
in plan order. -/
def sideStages (agent_messages : List Message) : List Stage :=
  ((agent_messages.filterMap Message.custom_content).map CustomContent.stages).flatten

/-- The attachments of all agent messages that carry custom content,
concatenated in plan order. -/
def sideAttachments (agent_messages : List Message) : List Attachment :=
  ((agent_messages.filterMap Message.custom_content).map CustomContent.attachments).flatten

/-! ## MASCoordinator: agent dispatch -/

/-- Modelled from the spec: the `AgentName` enum of task/models.py is not
under src/.  The spec names the known variants GeneralPurpose (GPA) and
SpecializedService (UMS); `unknown` stands for any other agent name a plan
could carry (the spec's fatal-error scenario). -/
inductive AgentName where
  | GPA : AgentName
  | UMS : AgentName
  | unknown (s : String) : AgentName
deriving DecidableEq

/-- The display text of an agent name. -/
def AgentName.render : AgentName → String
  | .GPA => "GeneralPurpose"
  | .UMS => "SpecializedService"
  | .unknown s => s

/-- One planned agent invocation (task/models.py `CoordinationRequest`). -/
structure CoordinationRequest where
  agent_name : AgentName
  additional_instructions : Option String

/-- The gateway variant a coordination request dispatches to. -/
inductive GatewayVariant where
  | gpaGateway : GatewayVariant
  | umsGateway : GatewayVariant
deriving DecidableEq

/-- `MASCoordinator.__handle_coordination_request`, with the agent invocation
abstracted away: the pure dispatch on the agent name, raising `ValueError`
(as an `Except.error`) for an unknown name. -/
def handle_coordination_request (r : CoordinationRequest) : Except String GatewayVariant :=
  match r.agent_name with
  | .GPA => .ok .gpaGateway
  | .UMS => .ok .umsGateway
  | .unknown s => .error ("Agent Name " ++ s ++ " is unknown")

/-- The agent calls attempted for one coordination request: exactly the
dispatched gateway, and none at all when dispatch fails. -/
def attemptedAgentCalls (r : CoordinationRequest) : List GatewayVariant :=
  match handle_coordination_request r with
  | .ok v => [v]
  | .error _ => []

/-! ## Helper lemmas: list surgery -/

theorem modifyAt_length {α : Type} (l : List α) (i : Nat) (f : α → α) :
    (modifyAt l i f).length = l.length := by
  unfold modifyAt
  cases h : l[i]? with
  | none => rfl
  | some a => simp [List.length_set]

theorem getElem?_modifyAt_ne {α : Type} (l : List α) (f : α → α) {i j : Nat} (h : i ≠ j) :
    (modifyAt l i f)[j]? = l[j]? := by
  unfold modifyAt
  cases hl : l[i]? with
  | none => rfl
  | some a => exact List.getElem?_set_ne h

theorem getElem?_modifyAt_eq {α : Type} (l : List α) (f : α → α) {i : Nat} {a : α}
    (h : l[i]? = some a) : (modifyAt l i f)[i]? = some (f a) := by
  have hi : i < l.length := by
    by_contra hge
    rw [List.getElem?_eq_none (Nat.le_of_not_lt hge)] at h
    exact Option.noConfusion h
  unfold modifyAt
  rw [h, List.getElem?_set_self hi]

/-! ## Helper lemmas: stage operations on closed and open sections -/

theorem append_content_of_completed (s : Stage) (c : String) (h : s.status = .completed) :
    s.append_content c = s := by
  simp [Stage.append_content, h]

theorem append_content_of_opened (s : Stage) (c : String) (h : s.status = .opened) :
    s.append_content c = { s with content := s.content ++ c } := by
  simp [Stage.append_content, h]

theorem add_attachment_of_completed (s : Stage) (a : Attachment) (h : s.status = .completed) :
    s.add_attachment a = s := by
  simp [Stage.add_attachment, h]

theorem foldl_add_attachment_of_completed (atts : List Attachment) (s : Stage)
    (h : s.status = .completed) : atts.foldl Stage.add_attachment s = s := by
  induction atts with
  | nil => rfl
  | cons a rest ih => rw [List.foldl_cons, add_attachment_of_completed s a h, ih]

theorem foldl_add_attachment_of_opened (atts : List Attachment) (s : Stage)
    (h : s.status = .opened) :
    atts.foldl Stage.add_attachment s = { s with attachments := s.attachments ++ atts } := by
  induction atts generalizing s with
  | nil => simp
  | cons a rest ih =>
    rw [List.foldl_cons]
    have hstep : s.add_attachment a = { s with attachments := s.attachments ++ [a] } := by
      simp [Stage.add_attachment, h]
    rw [hstep, ih { s with attachments := s.attachments ++ [a] } h]
    simp

theorem close_stage_safely_of_completed (s : Stage) (h : s.status = .completed) :
    StageProcessor.close_stage_safely s = s := by
  cases s with
  | mk n c a st => simp_all [StageProcessor.close_stage_safely]

theorem close_stage_safely_status (s : Stage) :
    (StageProcessor.close_stage_safely s).status = .completed := rfl

/-! ## Helper lemmas: index-map lookups -/

theorem lookupIdx_append_of_some {m : List (Nat × Nat)} {i p : Nat}
    (h : lookupIdx m i = some p) (m' : List (Nat × Nat)) :
    lookupIdx (m ++ m') i = some p := by
  induction m with
  | nil => exact absurd h (by simp [lookupIdx])
  | cons e rest ih =>
    rw [List.cons_append]
    unfold lookupIdx at h ⊢
    by_cases he : e.1 = i
    · simpa [he] using h
    · rw [if_neg he] at h ⊢
      exact ih h

theorem lookupIdx_append_self {m : List (Nat × Nat)} {i : Nat}
    (h : lookupIdx m i = none) (v : Nat) :
    lookupIdx (m ++ [(i, v)]) i = some v := by
  induction m with
  | nil => simp [lookupIdx]
  | cons e rest ih =>
    rw [List.cons_append]
    unfold lookupIdx at h ⊢
    by_cases he : e.1 = i
    · rw [if_pos he] at h
      exact absurd h (by simp)
    · rw [if_neg he] at h ⊢
      exact ih h

theorem lookupIdx_mem {m : List (Nat × Nat)} {i p : Nat}
    (h : lookupIdx m i = some p) : ∃ e ∈ m, e.1 = i ∧ e.2 = p := by
  induction m with
  | nil => exact absurd h (by simp [lookupIdx])
  | cons e rest ih =>
    unfold lookupIdx at h
    by_cases he : e.1 = i
    · rw [if_pos he] at h
      exact ⟨e, List.mem_cons_self e rest, he, by simpa using h⟩
    · rw [if_neg he] at h
      rcases ih h with ⟨e', hmem, hfst, hsnd⟩
      exact ⟨e', List.mem_cons_of_mem e hmem, hfst, hsnd⟩

/-! ## Helper lemmas: fields the stage-update step leaves alone -/

theorem procStageUpdate_stage (st : AggState) (u : StageUpdate) :
    (procStageUpdate st u).stage = st.stage := by
  unfold procStageUpdate
  cases lookupIdx st.stages_map u.index with
  | none => rfl
  | some pos => dsimp only; split_ifs <;> rfl

theorem procStageUpdate_content (st : AggState) (u : StageUpdate) :
    (procStageUpdate st u).content = st.content := by
  unfold procStageUpdate
  cases lookupIdx st.stages_map u.index with
  | none => rfl
  | some pos => dsimp only; split_ifs <;> rfl

theorem procStageUpdate_result_state (st : AggState) (u : StageUpdate) :
    (procStageUpdate st u).result_state = st.result_state := by
  unfold procStageUpdate
  cases lookupIdx st.stages_map u.index with
  | none => rfl
  | some pos => dsimp only; split_ifs <;> rfl

theorem procStageUpdate_result_attachments (st : AggState) (u : StageUpdate) :
    (procStageUpdate st u).result_attachments = st.result_attachments := by
  unfold procStageUpdate
  cases lookupIdx st.stages_map u.index with
  | none => rfl
  | some pos => dsimp only; split_ifs <;> rfl

theorem foldl_procStageUpdate_stage (us : List StageUpdate) (st : AggState) :
    (us.foldl procStageUpdate st).stage = st.stage := by
  induction us generalizing st with
  | nil => rfl
  | cons u us ih => rw [List.foldl_cons, ih, procStageUpdate_stage]

theorem foldl_procStageUpdate_content (us : List StageUpdate) (st : AggState) :
    (us.foldl procStageUpdate st).content = st.content := by
  induction us generalizing st with
  | nil => rfl
  | cons u us ih => rw [List.foldl_cons, ih, procStageUpdate_content]

/-! ## Helper lemmas: the content step and the custom-content steps -/

theorem procDeltaContent_content (st : AggState) (d : Delta) :
    (procDeltaContent st d).content = st.content ++ d.content.getD "" := by
  unfold procDeltaContent
  cases d.content with
  | none => exact (String.append_empty st.content).symm
  | some c =>
    dsimp only
    split_ifs with hc
    · rfl
    · push_neg at hc
      rw [Option.getD_some, hc, String.append_empty]

theorem procDeltaContent_stage (st : AggState) (d : Delta) (h : st.stage.status = .opened) :
    (procDeltaContent st d).stage = { st.stage with content := st.stage.content ++ d.content.getD "" } := by
  unfold procDeltaContent
  cases d.content with
  | none => rw [Option.getD_none, String.append_empty]
  | some c =>
    dsimp only
    split_ifs with hc
    · exact append_content_of_opened st.stage c h
    · push_neg at hc
      rw [Option.getD_some, hc, String.append_empty]

theorem procDeltaContent_choice_stages (st : AggState) (d : Delta) :
    (procDeltaContent st d).choice_stages = st.choice_stages := by
  unfold procDeltaContent
  cases d.content with
  | none => rfl
  | some c => dsimp only; split_ifs <;> rfl

theorem procDeltaContent_stages_map (st : AggState) (d : Delta) :
    (procDeltaContent st d).stages_map = st.stages_map := by
  unfold procDeltaContent
  cases d.content with
  | none => rfl
  | some c => dsimp only; split_ifs <;> rfl

theorem procCCAttachments_content (cc : DeltaCustomContent) (st : AggState) :
    (procCCAttachments cc st).content = st.content := by
  unfold procCCAttachments; split_ifs <;> rfl

theorem procCCAttachments_stage (cc : DeltaCustomContent) (st : AggState) :
    (procCCAttachments cc st).stage = st.stage := by
  unfold procCCAttachments; split_ifs <;> rfl

theorem procCCAttachments_choice_stages (cc : DeltaCustomContent) (st : AggState) :
    (procCCAttachments cc st).choice_stages = st.choice_stages := by
  unfold procCCAttachments; split_ifs <;> rfl

theorem procCCAttachments_stages_map (cc : DeltaCustomContent) (st : AggState) :
    (procCCAttachments cc st).stages_map = st.stages_map := by
  unfold procCCAttachments; split_ifs <;> rfl

theorem procCCState_content (cc : DeltaCustomContent) (st : AggState) :
    (procCCState cc st).content = st.content := by
  unfold procCCState; split_ifs <;> rfl

theorem procCCState_stage (cc : DeltaCustomContent) (st : AggState) :
    (procCCState cc st).stage = st.stage := by
  unfold procCCState; split_ifs <;> rfl

theorem procCCState_choice_stages (cc : DeltaCustomContent) (st : AggState) :
    (procCCState cc st).choice_stages = st.choice_stages := by
  unfold procCCState; split_ifs <;> rfl

theorem procCCState_stages_map (cc : DeltaCustomContent) (st : AggState) :
    (procCCState cc st).stages_map = st.stages_map := by
  unfold procCCState; split_ifs <;> rfl

theorem procCCStages_content (cc : DeltaCustomContent) (st : AggState) :
    (procCCStages cc st).content = st.content := by
  unfold procCCStages
  split_ifs
  · exact foldl_procStageUpdate_content _ st
  · rfl

theorem procCCStages_stage (cc : DeltaCustomContent) (st : AggState) :
    (procCCStages cc st).stage = st.stage := by
  unfold procCCStages
  split_ifs
  · exact foldl_procStageUpdate_stage _ st
  · rfl

theorem procDeltaCustom_content (st : AggState) (d : Delta) :
    (procDeltaCustom st d).content = st.content := by
  unfold procDeltaCustom
  cases d.custom_content with
  | none => rfl
  | some cc =>
    rw [procCCStages_content, procCCState_content, procCCAttachments_content]

theorem procDeltaCustom_stage (st : AggState) (d : Delta) :
    (procDeltaCustom st d).stage = st.stage := by
  unfold procDeltaCustom
  cases d.custom_content with
  | none => rfl
  | some cc =>
    rw [procCCStages_stage, procCCState_stage, procCCAttachments_stage]

theorem procDelta_content (st : AggState) (d : Delta) :
    (procDelta st d).content = st.content ++ d.content.getD "" := by
  unfold procDelta
  rw [procDeltaCustom_content, procDeltaContent_content]

theorem procDelta_stage (st : AggState) (d : Delta) (h : st.stage.status = .opened) :
    (procDelta st d).stage = { st.stage with content := st.stage.content ++ d.content.getD "" } := by
  unfold procDelta
  rw [procDeltaCustom_stage, procDeltaContent_stage st d h]

/-! ## The content-aggregation fold -/

theorem joinContents_filterMap_cons (d : Delta) (ds : List Delta) :
    joinContents ((d :: ds).filterMap Delta.content) =
      d.content.getD "" ++ joinContents (ds.filterMap Delta.content) := by
  cases hc : d.content with
  | none => rw [List.filterMap_cons_none hc, Option.getD_none, String.empty_append]
  | some c => rw [List.filterMap_cons_some hc, Option.getD_some]; rfl

theorem foldl_procDelta_agg (ds : List Delta) (st : AggState) (h : st.stage.status = .opened) :
    (ds.foldl procDelta st).content = st.content ++ joinContents (ds.filterMap Delta.content) ∧
    (ds.foldl procDelta st).stage =
      { st.stage with content := st.stage.content ++ joinContents (ds.filterMap Delta.content) } := by
  induction ds generalizing st with
  | nil =>
    refine ⟨(String.append_empty st.content).symm, ?_⟩
    rw [List.filterMap_nil]
    show st.stage = { st.stage with content := st.stage.content ++ joinContents [] }
    rw [show joinContents [] = "" from rfl, String.append_empty]
  | cons d ds ih =>
    have hstage := procDelta_stage st d h
    have hopen : (procDelta st d).stage.status = .opened := by rw [hstage]; exact h
    rcases ih (procDelta st d) hopen with ⟨ih1, ih2⟩
    constructor
    · rw [List.foldl_cons, ih1, procDelta_content, joinContents_filterMap_cons,
        String.append_assoc]
    · rw [List.foldl_cons, ih2, hstage, joinContents_filterMap_cons]
      dsimp only
      rw [String.append_assoc]

/-! ## Well-formedness of the index map and the forced-close pass -/

/-- Every recorded section position points inside the list of opened
sections. -/
def MapWF (st : AggState) : Prop :=
  ∀ e ∈ st.stages_map, e.2 < st.choice_stages.length

theorem mapWF_procStageUpdate {st : AggState} (h : MapWF st) (u : StageUpdate) :
    MapWF (procStageUpdate st u) := by
  unfold procStageUpdate
  cases lookupIdx st.stages_map u.index with
  | some pos =>
    dsimp only
    split_ifs <;> intro e he <;> first | (rw [modifyAt_length]; exact h e he) | exact h e he
  | none =>
    intro e he
    dsimp only at he ⊢
    rw [List.length_append, List.length_singleton]
    rcases List.mem_append.mp he with hin | hnew
    · exact Nat.lt_succ_of_lt (h e hin)
    · rcases List.mem_singleton.mp hnew with rfl
      exact Nat.lt_succ_self _

theorem mapWF_foldl_procStageUpdate {st : AggState} (h : MapWF st) (us : List StageUpdate) :
    MapWF (us.foldl procStageUpdate st) := by
  induction us generalizing st with
  | nil => exact h
  | cons u us ih => exact ih (mapWF_procStageUpdate h u)

theorem mapWF_procDelta {st : AggState} (h : MapWF st) (d : Delta) :
    MapWF (procDelta st d) := by
  have h1 : MapWF (procDeltaContent st d) := by
    intro e he
    rw [procDeltaContent_choice_stages]
    rw [procDeltaContent_stages_map] at he
    exact h e he
  unfold procDelta procDeltaCustom
  cases d.custom_content with
  | none => exact h1
  | some cc =>
    have h2 : MapWF (procCCAttachments cc (procDeltaContent st d)) := by
      intro e he
      rw [procCCAttachments_choice_stages]
      rw [procCCAttachments_stages_map] at he
      exact h1 e he
    have h3 : MapWF (procCCState cc (procCCAttachments cc (procDeltaContent st d))) := by
      intro e he
      rw [procCCState_choice_stages]
      rw [procCCState_stages_map] at he
      exact h2 e he
    unfold procCCStages
    dsimp only
    split_ifs
    · exact mapWF_foldl_procStageUpdate h3 _
    · exact h3

theorem mapWF_foldl_procDelta {st : AggState} (h : MapWF st) (ds : List Delta) :
    MapWF (ds.foldl procDelta st) := by
  induction ds generalizing st with
  | nil => exact h
  | cons d ds ih => exact ih (mapWF_procDelta h d)

theorem mapWF_initAgg (stage : Stage) : MapWF (initAgg stage) := by
  intro e he
  exact absurd he (by simp [initAgg])

theorem closeMapped_stages_map (st : AggState) (e : Nat × Nat) :
    (closeMapped st e).stages_map = st.stages_map := rfl

theorem closeMapped_length (st : AggState) (e : Nat × Nat) :
    (closeMapped st e).choice_stages.length = st.choice_stages.length :=
  modifyAt_length _ _ _

theorem foldl_closeMapped_stages_map (entries : List (Nat × Nat)) (st : AggState) :
    (entries.foldl closeMapped st).stages_map = st.stages_map := by
  induction entries generalizing st with
  | nil => rfl
  | cons e rest ih => rw [List.foldl_cons, ih, closeMapped_stages_map]

theorem foldl_closeMapped_preserves_completed (entries : List (Nat × Nat)) (st : AggState)
    (p : Nat) (s : Stage) (h1 : st.choice_stages[p]? = some s) (h2 : s.status = .completed) :
    ∃ s', (entries.foldl closeMapped st).choice_stages[p]? = some s' ∧
      s'.status = .completed := by
  induction entries generalizing st s with
  | nil => exact ⟨s, h1, h2⟩
  | cons e rest ih =>
    rw [List.foldl_cons]
    by_cases hp : e.2 = p
    · have hclosed : (closeMapped st e).choice_stages[p]? =
          some (StageProcessor.close_stage_safely s) := by
        unfold closeMapped
        dsimp only
        rw [hp]
        exact getElem?_modifyAt_eq _ _ h1
      exact ih _ _ hclosed (close_stage_safely_status s)
    · have hsame : (closeMapped st e).choice_stages[p]? = some s := by
        unfold closeMapped
        dsimp only
        rw [getElem?_modifyAt_ne _ _ hp]
        exact h1
      exact ih _ _ hsame h2

theorem foldl_closeMapped_closes (entries : List (Nat × Nat)) (st : AggState) (p : Nat)
    (hmem : p ∈ entries.map Prod.snd) (hlen : p < st.choice_stages.length) :
    ∃ s', (entries.foldl closeMapped st).choice_stages[p]? = some s' ∧
      s'.status = .completed := by
  induction entries generalizing st with
  | nil => exact absurd hmem (by simp)
  | cons e rest ih =>
    rw [List.foldl_cons]
    by_cases hp : e.2 = p
    · have hs : st.choice_stages[p]? = some st.choice_stages[p] :=
        List.getElem?_eq_getElem hlen
      have hclosed : (closeMapped st e).choice_stages[p]? =
          some (StageProcessor.close_stage_safely st.choice_stages[p]) := by
        unfold closeMapped
        dsimp only
        rw [hp]
        exact getElem?_modifyAt_eq _ _ hs
      exact foldl_closeMapped_preserves_completed rest _ p _ hclosed
        (close_stage_safely_status _)
    · have hmem' : p ∈ rest.map Prod.snd := by
        rcases List.mem_map.mp hmem with ⟨a, ha, hap⟩
        rcases List.mem_cons.mp ha with rfl | ha'
        · exact absurd hap hp
        · rw [← hap]
          exact List.mem_map_of_mem Prod.snd ha'
      have hlen' : p < (closeMapped st e).choice_stages.length := by
        rw [closeMapped_length]
        exact hlen
      exact ih _ hmem' hlen'

/-! ## Helper lemmas: the four branches of the stage-update step -/

theorem lt_length_of_getElem?_some {α : Type} {l : List α} {p : Nat} {a : α}
    (h : l[p]? = some a) : p < l.length := by
  by_contra hge
  rw [List.getElem?_eq_none (Nat.le_of_not_lt hge)] at h
  exact Option.noConfusion h

theorem procStageUpdate_of_none {st : AggState} {u : StageUpdate}
    (h : lookupIdx st.stages_map u.index = none) :
    procStageUpdate st u = { st with
      choice_stages := st.choice_stages ++
        [{ name := u.name, content := "", attachments := [], status := .opened }],
      stages_map := st.stages_map ++ [(u.index, st.choice_stages.length)] } := by
  unfold procStageUpdate
  rw [h]

theorem procStageUpdate_known_content {st : AggState} {u : StageUpdate} {p : Nat}
    (h : lookupIdx st.stages_map u.index = some p) (hc : u.content.getD "" ≠ "") :
    procStageUpdate st u = { st with choice_stages := modifyAt st.choice_stages p (Stage.append_content · (u.content.getD "")) } := by
  unfold procStageUpdate
  rw [h]
  dsimp only
  rw [if_pos hc]

theorem procStageUpdate_known_attachments {st : AggState} {u : StageUpdate} {p : Nat}
    (h : lookupIdx st.stages_map u.index = some p) (hc : u.content.getD "" = "")
    (ha : (u.attachments.getD []).isEmpty = false) :
    procStageUpdate st u = { st with choice_stages := modifyAt st.choice_stages p (fun s => (u.attachments.getD []).foldl Stage.add_attachment s) } := by
  unfold procStageUpdate
  rw [h]
  dsimp only
  rw [if_neg (by rw [hc]; exact fun hne => hne rfl), if_pos ha]

theorem procStageUpdate_known_completed {st : AggState} {u : StageUpdate} {p : Nat}
    (h : lookupIdx st.stages_map u.index = some p) (hc : u.content.getD "" = "")
    (ha : (u.attachments.getD []).isEmpty = true) (hs : u.status = some "completed") :
    procStageUpdate st u = { st with choice_stages := modifyAt st.choice_stages p StageProcessor.close_stage_safely } := by
  unfold procStageUpdate
  rw [h]
  dsimp only
  rw [if_neg (by rw [hc]; exact fun hne => hne rfl), if_neg (by rw [ha]; exact Bool.noConfusion),
    if_pos hs]

theorem procStageUpdate_known_noop {st : AggState} {u : StageUpdate} {p : Nat}
    (h : lookupIdx st.stages_map u.index = some p) (hc : u.content.getD "" = "")
    (ha : (u.attachments.getD []).isEmpty = true) (hs : u.status ≠ some "completed") :
    procStageUpdate st u = st := by
  unfold procStageUpdate
  rw [h]
  dsimp only
  rw [if_neg (by rw [hc]; exact fun hne => hne rfl), if_neg (by rw [ha]; exact Bool.noConfusion),
    if_neg hs]

theorem procStageUpdate_stages_map_of_some {st : AggState} {u : StageUpdate} {p : Nat}
    (h : lookupIdx st.stages_map u.index = some p) :
    (procStageUpdate st u).stages_map = st.stages_map := by
  unfold procStageUpdate
  rw [h]
  dsimp only
  split_ifs <;> rfl

theorem procStageUpdate_known_getElem?_ne {st : AggState} {u : StageUpdate} {q : Nat}
    (h : lookupIdx st.stages_map u.index = some q) {p : Nat} (hqp : q ≠ p) :
    (procStageUpdate st u).choice_stages[p]? = st.choice_stages[p]? := by
  unfold procStageUpdate
  rw [h]
  dsimp only
  split_ifs <;> first | exact getElem?_modifyAt_ne _ _ hqp | rfl

theorem lookupIdx_procStageUpdate {st : AggState} {u : StageUpdate} {i p : Nat}
    (h : lookupIdx st.stages_map i = some p) :
    lookupIdx (procStageUpdate st u).stages_map i = some p := by
  cases hl : lookupIdx st.stages_map u.index with
  | some q =>
    rw [procStageUpdate_stages_map_of_some hl]
    exact h
  | none =>
    rw [procStageUpdate_of_none hl]
    dsimp only
    exact lookupIdx_append_of_some h _

theorem lookupIdx_foldl_procStageUpdate {us : List StageUpdate} {st : AggState} {i p : Nat}
    (h : lookupIdx st.stages_map i = some p) :
    lookupIdx (us.foldl procStageUpdate st).stages_map i = some p := by
  induction us generalizing st with
  | nil => exact h
  | cons u us ih => exact ih (lookupIdx_procStageUpdate h)

/-! ## Helper lemmas: the GPA state wrapper and message preparation -/

theorem gpaWrapState_truthy (S : JVal) : (gpaWrapState S).truthy = true := rfl

theorem gpaWrapState_get_is_gpa (S : JVal) : (gpaWrapState S).get "is_gpa" = .bool true := by
  simp [gpaWrapState, JVal.get, List.lookup]

theorem gpaWrapState_get_messages (S : JVal) : (gpaWrapState S).get "gpa_messages" = S := by
  simp [gpaWrapState, JVal.get, List.lookup]

theorem mem_enum_of_getElem? {α : Type} {l : List α} {i : Nat} {a : α}
    (h : l[i]? = some a) : (i, a) ∈ l.enum := by
  have henum : l.enum[i]? = some (i, a) := by
    rw [List.getElem?_enum, h]
    rfl
  exact List.getElem?_mem henum

theorem mem_prepare_gpa_messages {msgs : List Message} {i : Nat} {m x : Message}
    (addInstr : Option String) (hm : msgs[i]? = some m)
    (hx : x ∈ gpaTranscribeAt msgs i m) :
    x ∈ prepare_gpa_messages msgs addInstr := by
  unfold prepare_gpa_messages
  apply List.mem_append_left
  have henum : (i, m) ∈ msgs.enum := mem_enum_of_getElem? hm
  have hmap : gpaTranscribeAt msgs i m ∈
      msgs.enum.map fun p => gpaTranscribeAt msgs p.1 p.2 :=
    List.mem_map_of_mem _ henum
  exact List.mem_flatten_of_mem hmap hx

/-! ## Helper lemmas: the side-channel merge -/

theorem sideStages_cons_none {m : Message} (ms : List Message)
    (h : m.custom_content = none) : sideStages (m :: ms) = sideStages ms := by
  unfold sideStages
  rw [List.filterMap_cons_none h]

theorem sideStages_cons_some {m : Message} {cc : CustomContent} (ms : List Message)
    (h : m.custom_content = some cc) :
    sideStages (m :: ms) = cc.stages ++ sideStages ms := by
  unfold sideStages
  rw [List.filterMap_cons_some h, List.map_cons, List.flatten_cons]

theorem sideAttachments_cons_none {m : Message} (ms : List Message)
    (h : m.custom_content = none) : sideAttachments (m :: ms) = sideAttachments ms := by
  unfold sideAttachments
  rw [List.filterMap_cons_none h]

theorem sideAttachments_cons_some {m : Message} {cc : CustomContent} (ms : List Message)
    (h : m.custom_content = some cc) :
    sideAttachments (m :: ms) = cc.attachments ++ sideAttachments ms := by
  unfold sideAttachments
  rw [List.filterMap_cons_some h, List.map_cons, List.flatten_cons]

theorem foldl_mergeStep_some (ms : List Message) (a : CustomContent) :
    ms.foldl mergeCustomContentStep (some a) =
      some { a with stages := a.stages ++ sideStages ms,
                    attachments := a.attachments ++ sideAttachments ms } := by
  induction ms generalizing a with
  | nil =>
    show (some a : Option CustomContent) = _
    rw [show sideStages [] = [] from rfl, show sideAttachments [] = [] from rfl,
      List.append_nil, List.append_nil]
  | cons m ms ih =>
    rw [List.foldl_cons]
    cases hm : m.custom_content with
    | none =>
      have hstep : mergeCustomContentStep (some a) m = some a := by
        unfold mergeCustomContentStep
        rw [hm]
      rw [hstep, ih, sideStages_cons_none ms hm, sideAttachments_cons_none ms hm]
    | some cc =>
      have hstep : mergeCustomContentStep (some a) m =
          some { a with stages := a.stages ++ cc.stages,
                        attachments := a.attachments ++ cc.attachments } := by
        unfold mergeCustomContentStep
        rw [hm]
      rw [hstep, ih, sideStages_cons_some ms hm, sideAttachments_cons_some ms hm]
      simp [List.append_assoc]

theorem mergeCustomContent_eq_none_iff (ms : List Message) :
    mergeCustomContent ms = none ↔ ∀ m ∈ ms, m.custom_content = none := by
  induction ms with
  | nil => simp [mergeCustomContent]
  | cons m ms ih =>
    unfold mergeCustomContent at ih ⊢
    rw [List.foldl_cons]
    cases hm : m.custom_content with
    | none =>
      have hstep : mergeCustomContentStep none m = none := by
        unfold mergeCustomContentStep
        rw [hm]
      rw [hstep]
      simp only [List.mem_cons]
      constructor
      · intro h m' hm'
        rcases hm' with rfl | hm'
        · exact hm
        · exact (ih.mp h) m' hm'
      · intro h
        exact ih.mpr fun m' hm' => h m' (Or.inr hm')
    | some cc =>
      have hstep : mergeCustomContentStep none m = some cc := by
        unfold mergeCustomContentStep
        rw [hm]
      rw [hstep, foldl_mergeStep_some]
      constructor
      · intro h
        exact absurd h (by simp)
      · intro h
        exact absurd (h m (List.mem_cons_self m ms)) (by rw [hm]; simp)

theorem mergeCustomContent_eq_some (ms : List Message) (cc : CustomContent)
    (h : mergeCustomContent ms = some cc) :
    cc.stages = sideStages ms ∧ cc.attachments = sideAttachments ms := by
  induction ms generalizing cc with
  | nil => exact absurd h (by simp [mergeCustomContent])
  | cons m ms ih =>
    unfold mergeCustomContent at h ih
    rw [List.foldl_cons] at h
    cases hm : m.custom_content with
    | none =>
      have hstep : mergeCustomContentStep none m = none := by
        unfold mergeCustomContentStep
        rw [hm]
      rw [hstep] at h
      rcases ih cc h with ⟨h1, h2⟩
      exact ⟨by rw [h1, sideStages_cons_none ms hm],
             by rw [h2, sideAttachments_cons_none ms hm]⟩
    | some c0 =>
      have hstep : mergeCustomContentStep none m = some c0 := by
        unfold mergeCustomContentStep
        rw [hm]
      rw [hstep, foldl_mergeStep_some] at h
      have hcc := (Option.some_inj.mp h).symm
      rw [hcc, sideStages_cons_some ms hm, sideAttachments_cons_some ms hm]
      exact ⟨rfl, rfl⟩

/-! ## The claims -/

/-- C1: Round-trip of the GPA opaque state.  Whenever the request history
holds an assistant message whose opaque state is the exported wrapper
`{is_gpa: true, gpa_messages: S}`, the message-preparation step of the
general-purpose gateway reconstructs from it an assistant message (present
in the prepared list) whose opaque-state field is exactly the inner state
`S`, the wrapper stripped. -/
theorem c1_gpa_state_roundtrip (msgs : List Message) (addInstr : Option String)
    (i : Nat) (m : Message) (cc : CustomContent) (S : JVal)
    (hm : msgs[i]? = some m) (hrole : m.role = .assistant)
    (hcc : m.custom_content = some cc) (hstate : cc.state = gpaWrapState S) :
    restoreGpaAssistant m cc ∈ prepare_gpa_messages msgs addInstr ∧
    (restoreGpaAssistant m cc).role = .assistant ∧
    (restoreGpaAssistant m cc).custom_content = some { cc with state := S } := by
  have htrans : gpaTranscribeAt msgs i m = [prevMessage msgs i, restoreGpaAssistant m cc] := by
    unfold gpaTranscribeAt
    rw [hcc]
    simp only [hrole, hstate, gpaWrapState_truthy, gpaWrapState_get_is_gpa, if_pos rfl]
    rfl
  refine ⟨?_, hrole, ?_⟩
  · refine mem_prepare_gpa_messages addInstr hm ?_
    rw [htrans]
    exact List.mem_cons_of_mem _ (List.mem_cons_self _ _)
  · unfold restoreGpaAssistant
    rw [hstate, gpaWrapState_get_messages]

/-- Concrete history for the C1 witness: one assistant message carrying the
exported wrapper around the inner state `"inner"`. -/
def c1DemoCC : CustomContent :=
  { attachments := [], state := gpaWrapState (.str "inner"), stages := [] }

/-- The assistant message of the C1 witness history. -/
def c1DemoMsg : Message :=
  { role := .assistant, content := "prior answer", custom_content := some c1DemoCC }

/-- Witness for C1 at the concrete one-message history. -/
theorem c1_gpa_state_roundtrip_witness :
    restoreGpaAssistant c1DemoMsg c1DemoCC ∈ prepare_gpa_messages [c1DemoMsg] none ∧
    (restoreGpaAssistant c1DemoMsg c1DemoCC).role = .assistant ∧
    (restoreGpaAssistant c1DemoMsg c1DemoCC).custom_content =
      some { c1DemoCC with state := .str "inner" } :=
  c1_gpa_state_roundtrip [c1DemoMsg] none 0 c1DemoMsg c1DemoCC (.str "inner") rfl rfl rfl rfl

/-- C2: For every delta sequence consumed by the aggregation loop, the final
accumulated content equals the concatenation, in arrival order, of the
content carried by the fragments, and the same concatenation is what was
forwarded live to the top-level progress section of the agent call; a
fragment carrying no custom content never touches the nested sections. -/
theorem c2_content_aggregation (deltas : List Delta) (stage : Stage)
    (h : stage.status = .opened) :
    (deltas.foldl procDelta (initAgg stage)).content =
      joinContents (deltas.filterMap Delta.content) ∧
    (deltas.foldl procDelta (initAgg stage)).stage =
      { stage with content := stage.content ++ joinContents (deltas.filterMap Delta.content) } ∧
    (∀ (st : AggState) (d : Delta), d.custom_content = none →
      (procDelta st d).choice_stages = st.choice_stages ∧
      (procDelta st d).stages_map = st.stages_map) := by
  have hinit : (initAgg stage).stage.status = .opened := h
  rcases foldl_procDelta_agg deltas (initAgg stage) hinit with ⟨h1, h2⟩
  refine ⟨?_, ?_, ?_⟩
  · rw [h1]
    exact String.empty_append _
  · exact h2
  · intro st d hd
    constructor
    · unfold procDelta procDeltaCustom
      rw [hd]
      exact procDeltaContent_choice_stages st d
    · unfold procDelta procDeltaCustom
      rw [hd]
      exact procDeltaContent_stages_map st d

/-- Concrete delta sequence for the C2 witness: two content fragments. -/
def c2DemoDeltas : List Delta :=
  [{ content := some "Hel", custom_content := none },
   { content := some "lo", custom_content := none }]

/-- The open top-level section of the C2 witness. -/
def c2DemoStage : Stage :=
  { name := some "Call GeneralPurpose Agent", content := "", attachments := [], status := .opened }

/-- Witness for C2 at the concrete delta sequence. -/
theorem c2_content_aggregation_witness :
    (c2DemoDeltas.foldl procDelta (initAgg c2DemoStage)).content =
      joinContents (c2DemoDeltas.filterMap Delta.content) :=
  (c2_content_aggregation c2DemoDeltas c2DemoStage rfl).1

/-- C3: the nested-section state machine.  Once an index is bound to a
section it is never rebound (so each index opens a caller-visible section at
most once, on its first sighting, with that update's name); a content update
for a known open section appends to that same section; an attachments update
attaches to it; and once a section is completed no later update for any
index mutates it — in particular a duplicate completion marker is a no-op. -/
theorem c3_section_state_machine :
    (∀ (us : List StageUpdate) (st : AggState) (i p : Nat),
      lookupIdx st.stages_map i = some p →
      lookupIdx (us.foldl procStageUpdate st).stages_map i = some p) ∧
    (∀ (st : AggState) (u : StageUpdate),
      lookupIdx st.stages_map u.index = none →
      (procStageUpdate st u).choice_stages = st.choice_stages ++
        [{ name := u.name, content := "", attachments := [], status := .opened }] ∧
      lookupIdx (procStageUpdate st u).stages_map u.index = some st.choice_stages.length) ∧
    (∀ (st : AggState) (u : StageUpdate) (p : Nat) (s : Stage),
      lookupIdx st.stages_map u.index = some p → st.choice_stages[p]? = some s →
      s.status = .opened → u.content.getD "" ≠ "" →
      (procStageUpdate st u).choice_stages[p]? =
        some { s with content := s.content ++ u.content.getD "" }) ∧
    (∀ (st : AggState) (u : StageUpdate) (p : Nat) (s : Stage),
      lookupIdx st.stages_map u.index = some p → st.choice_stages[p]? = some s →
      s.status = .opened → u.content.getD "" = "" →
      (u.attachments.getD []).isEmpty = false →
      (procStageUpdate st u).choice_stages[p]? =
        some { s with attachments := s.attachments ++ u.attachments.getD [] }) ∧
    (∀ (st : AggState) (u : StageUpdate) (p : Nat) (s : Stage),
      st.choice_stages[p]? = some s → s.status = .completed →
      (procStageUpdate st u).choice_stages[p]? = some s) := by
  refine ⟨?_, ?_, ?_, ?_, ?_⟩
  · intro us st i p h
    exact lookupIdx_foldl_procStageUpdate h
  · intro st u h
    rw [procStageUpdate_of_none h]
    exact ⟨rfl, lookupIdx_append_self h _⟩
  · intro st u p s hl hsp hopen hc
    rw [procStageUpdate_known_content hl hc]
    rw [getElem?_modifyAt_eq _ _ hsp]
    rw [append_content_of_opened s _ hopen]
  · intro st u p s hl hsp hopen hc ha
    rw [procStageUpdate_known_attachments hl hc ha]
    rw [getElem?_modifyAt_eq _ _ hsp]
    rw [foldl_add_attachment_of_opened _ s hopen]
  · intro st u p s hsp hcomp
    cases hl : lookupIdx st.stages_map u.index with
    | none =>
      rw [procStageUpdate_of_none hl]
      dsimp only
      rw [List.getElem?_append_left (lt_length_of_getElem?_some hsp)]
      exact hsp
    | some q =>
      by_cases hqp : q = p
      · subst hqp
        by_cases hc : u.content.getD "" ≠ ""
        · rw [procStageUpdate_known_content hl hc]
          rw [getElem?_modifyAt_eq _ _ hsp]
          rw [append_content_of_completed s _ hcomp]
        · push_neg at hc
          by_cases ha : (u.attachments.getD []).isEmpty = false
          · rw [procStageUpdate_known_attachments hl hc ha]
            rw [getElem?_modifyAt_eq _ _ hsp]
            rw [foldl_add_attachment_of_completed _ s hcomp]
          · have ha' : (u.attachments.getD []).isEmpty = true := by
              revert ha
              cases (u.attachments.getD []).isEmpty <;> simp
            by_cases hs2 : u.status = some "completed"
            · rw [procStageUpdate_known_completed hl hc ha' hs2]
              dsimp only
              rw [getElem?_modifyAt_eq _ _ hsp]
              rw [close_stage_safely_of_completed s hcomp]
            · rw [procStageUpdate_known_noop hl hc ha' hs2]
              exact hsp
      · rw [procStageUpdate_known_getElem?_ne hl hqp]
        exact hsp

/-- C4: forced-close guarantee.  After the delta stream of one agent call
ends — whether or not completion markers ever arrived — every nested
section recorded in the index map is in the completed state. -/
theorem c4_forced_close (deltas : List Delta) (stage : Stage) (i p : Nat)
    (h : lookupIdx (gpaAggregate deltas stage).stages_map i = some p) :
    ∃ s, (gpaAggregate deltas stage).choice_stages[p]? = some s ∧
      s.status = .completed := by
  have hmapeq : (gpaAggregate deltas stage).stages_map =
      (deltas.foldl procDelta (initAgg stage)).stages_map :=
    foldl_closeMapped_stages_map _ _
  rw [hmapeq] at h
  rcases lookupIdx_mem h with ⟨e, hmem, _, hsnd⟩
  have hWF : MapWF (deltas.foldl procDelta (initAgg stage)) :=
    mapWF_foldl_procDelta (mapWF_initAgg stage) deltas
  have hlen : p < (deltas.foldl procDelta (initAgg stage)).choice_stages.length :=
    hsnd ▸ hWF e hmem
  have hp : p ∈ (deltas.foldl procDelta (initAgg stage)).stages_map.map Prod.snd := by
    rw [← hsnd]
    exact List.mem_map_of_mem Prod.snd hmem
  exact foldl_closeMapped_closes _ _ p hp hlen

/-- Concrete delta sequence for the C4 witness: a section is opened and the
stream ends without any completion marker. -/
def c4DemoUpdate : StageUpdate :=
  { index := 0, name := some "Searching", content := none, attachments := none, status := none }

/-- The one custom-content fragment of the C4 witness. -/
def c4DemoCC : DeltaCustomContent :=
  { attachments := none, state := .null, stages := some [c4DemoUpdate] }

/-- The C4 witness delta stream. -/
def c4DemoDeltas : List Delta :=
  [{ content := none, custom_content := some c4DemoCC }]

/-- The open top-level section of the C4 witness. -/
def c4DemoStage : Stage :=
  { name := some "Call GeneralPurpose Agent", content := "", attachments := [], status := .opened }

/-- Witness for C4: the never-completed section 0 is closed after the call. -/
theorem c4_forced_close_witness :
    ∃ s, (gpaAggregate c4DemoDeltas c4DemoStage).choice_stages[0]? = some s ∧
      s.status = .completed :=
  c4_forced_close c4DemoDeltas c4DemoStage 0 0 (by rfl)

/-- C5: synthesis context construction.  No agent messages give the literal
no-agent-calls marker; exactly one gives the single unlabeled block with that
message's content; two or more give the newline-joined numbered blocks, one
per agent message in plan order, the k-th labeled CONTEXT k+1 and holding the
k-th agent's output content verbatim. -/
theorem c5_synthesis_context :
    buildContext [] = "No agent calls" ∧
    (∀ m : Message, buildContext [m] = "## CONTEXT:\n " ++ m.content) ∧
    (∀ ms : List Message, 2 ≤ ms.length →
      buildContext ms = String.intercalate "\n" (ms.enum.map fun p => contextBlock p.1 p.2) ∧
      (ms.enum.map fun p => contextBlock p.1 p.2).length = ms.length ∧
      (∀ (k : Nat) (m : Message), ms[k]? = some m →
        (ms.enum.map fun p => contextBlock p.1 p.2)[k]? =
          some ("## CONTEXT " ++ toString (k + 1) ++ ":\n " ++ m.content))) := by
  refine ⟨rfl, fun m => rfl, fun ms hms => ⟨?_, ?_, ?_⟩⟩
  · unfold buildContext
    rw [if_pos (by omega)]
  · rw [List.length_map, List.enum_length]
  · intro k m hk
    rw [List.getElem?_map, List.getElem?_enum, hk]
    rfl

/-- C6: dispatch maps the two known agent names purely to the corresponding
gateway variant, and any other name fails the turn with the unknown-agent
error before any agent call is attempted. -/
theorem c6_dispatch :
    (∀ instr, handle_coordination_request
      { agent_name := .GPA, additional_instructions := instr } = .ok .gpaGateway) ∧
    (∀ instr, handle_coordination_request
      { agent_name := .UMS, additional_instructions := instr } = .ok .umsGateway) ∧
    (∀ (s : String) (instr : Option String),
      handle_coordination_request { agent_name := .unknown s, additional_instructions := instr } =
        .error ("Agent Name " ++ s ++ " is unknown") ∧
      attemptedAgentCalls { agent_name := .unknown s, additional_instructions := instr } = []) :=
  ⟨fun _ => rfl, fun _ => rfl, fun _ _ => ⟨rfl, rfl⟩⟩

/-- C7: the returned synthesis message's side channel is the concatenation,
in plan order, of every agent message's side-channel stages and attachments,
and it is absent exactly when no agent message carried side-channel
content. -/
theorem c7_side_channel_merge (agent_messages : List Message) :
    (mergeCustomContent agent_messages = none ↔
      ∀ m ∈ agent_messages, m.custom_content = none) ∧
    (∀ cc : CustomContent, mergeCustomContent agent_messages = some cc →
      cc.stages = sideStages agent_messages ∧
      cc.attachments = sideAttachments agent_messages) :=
  ⟨mergeCustomContent_eq_none_iff agent_messages,
   fun cc h => mergeCustomContent_eq_some agent_messages cc h⟩

/-- C8: frame property of the synthesis message construction.  Prepending
the context block changes only the final message of the prepared list: the
length is unchanged, every earlier message is untouched, and the final
message keeps its other fields while its text becomes the context block, the
separator, then the original text. -/
theorem c8_synthesis_frame (messages : List Message) (context : String)
    (hne : messages ≠ []) :
    (applySynthesisContext messages context).length = messages.length ∧
    (∀ i, i < messages.length - 1 →
      (applySynthesisContext messages context)[i]? = messages[i]?) ∧
    (applySynthesisContext messages context)[messages.length - 1]? =
      some { messages.getD (messages.length - 1) defaultMessage with
             content := context ++ userRequestSeparator ++
               (messages.getD (messages.length - 1) defaultMessage).content } := by
  unfold applySynthesisContext
  refine ⟨List.length_set messages _ _, ?_, ?_⟩
  · intro i hi
    exact List.getElem?_set_ne (by omega)
  · have hpos : 0 < messages.length := List.length_pos.mpr hne
    have hlt : messages.length - 1 < messages.length := Nat.sub_lt hpos Nat.one_pos
    rw [List.getElem?_set_self hlt]

/-- Concrete prepared message list for the C8 witness. -/
def c8DemoMessages : List Message :=
  [{ role := .system, content := "SYS", custom_content := none },
   { role := .user, content := "hi", custom_content := none }]

/-- Witness for C8: the final message of the concrete list after the update. -/
theorem c8_synthesis_frame_witness :
    (applySynthesisContext c8DemoMessages "No agent calls")[c8DemoMessages.length - 1]? =
      some { c8DemoMessages.getD (c8DemoMessages.length - 1) defaultMessage with
             content := "No agent calls" ++ userRequestSeparator ++
               (c8DemoMessages.getD (c8DemoMessages.length - 1) defaultMessage).content } :=
  (c8_synthesis_frame c8DemoMessages "No agent calls" (by exact List.cons_ne_nil _ _)).2.2

/-- C9: the planner and the synthesizer share one history-transcription
rule: the prepared list is the fixed system prompt followed by the
transcribed history, where a user message carrying structured custom content
becomes a plain-text user message (payload dropped) and every other message
is forwarded as-is. -/
theorem c9_history_transcription :
    (∀ (msgs : List Message) (system_prompt : String),
      prepare_messages msgs system_prompt =
        { role := .system, content := system_prompt, custom_content := none }
          :: msgs.map transcribeMessage) ∧
    (∀ (m : Message) (cc : CustomContent), m.role = .user → m.custom_content = some cc →
      transcribeMessage m = { role := .user, content := m.content, custom_content := none }) ∧
    (∀ m : Message, m.role ≠ .user ∨ m.custom_content = none → transcribeMessage m = m) := by
  refine ⟨fun msgs sp => rfl, ?_, ?_⟩
  · intro m cc hrole hcc
    rcases m with ⟨r, c, mcc⟩
    dsimp only at hrole hcc ⊢
    subst hrole
    subst hcc
    rfl
  · intro m hm
    rcases m with ⟨r, c, mcc⟩
    rcases hm with hr | hccn
    · cases r with
      | user => exact absurd rfl hr
      | system => cases mcc <;> rfl
      | assistant => cases mcc <;> rfl
    · dsimp only at hccn
      subst hccn
      cases r <;> rfl

/-- C10: on the first sighting of a section index the loop opens a fresh
section carrying only that update's name — any content, attachments or
completed status in that same update are discarded, and every previously
opened section is untouched; for an already-recorded index exactly one kind
of payload is applied: content if it is truthy, otherwise attachments if
non-empty, otherwise the completed marker, otherwise nothing. -/
theorem c10_first_sighting_and_priority :
    (∀ (st : AggState) (u : StageUpdate),
      lookupIdx st.stages_map u.index = none →
      (procStageUpdate st u).choice_stages[st.choice_stages.length]? =
        some { name := u.name, content := "", attachments := [], status := .opened } ∧
      lookupIdx (procStageUpdate st u).stages_map u.index = some st.choice_stages.length ∧
      (∀ (p : Nat) (s : Stage), st.choice_stages[p]? = some s →
        (procStageUpdate st u).choice_stages[p]? = some s)) ∧
    (∀ (st : AggState) (u : StageUpdate) (p : Nat),
      lookupIdx st.stages_map u.index = some p → u.content.getD "" ≠ "" →
      procStageUpdate st u = { st with choice_stages := modifyAt st.choice_stages p (Stage.append_content · (u.content.getD "")) }) ∧
    (∀ (st : AggState) (u : StageUpdate) (p : Nat),
      lookupIdx st.stages_map u.index = some p → u.content.getD "" = "" →
      (u.attachments.getD []).isEmpty = false →
      procStageUpdate st u = { st with choice_stages := modifyAt st.choice_stages p (fun s => (u.attachments.getD []).foldl Stage.add_attachment s) }) ∧
    (∀ (st : AggState) (u : StageUpdate) (p : Nat),
      lookupIdx st.stages_map u.index = some p → u.content.getD "" = "" →
      (u.attachments.getD []).isEmpty = true → u.status = some "completed" →
      procStageUpdate st u = { st with choice_stages := modifyAt st.choice_stages p StageProcessor.close_stage_safely }) ∧
    (∀ (st : AggState) (u : StageUpdate) (p : Nat),
      lookupIdx st.stages_map u.index = some p → u.content.getD "" = "" →
      (u.attachments.getD []).isEmpty = true → u.status ≠ some "completed" →
      procStageUpdate st u = st) := by
  refine ⟨?_, ?_, ?_, ?_, ?_⟩
  · intro st u h
    rw [procStageUpdate_of_none h]
    refine ⟨?_, lookupIdx_append_self h _, ?_⟩
    · dsimp only
      rw [List.getElem?_append_right (Nat.le_refl _)]
      simp
    · intro p s hsp
      dsimp only
      rw [List.getElem?_append_left (lt_length_of_getElem?_some hsp)]
      exact hsp
  · intro st u p h hc
    exact procStageUpdate_known_content h hc
  · intro st u p h hc ha
    exact procStageUpdate_known_attachments h hc ha
  · intro st u p h hc ha hs
    exact procStageUpdate_known_completed h hc ha hs
  · intro st u p h hc ha hs
    exact procStageUpdate_known_noop h hc ha hs

end MasCoord
